import Mathlib

/-!
# Verification of the CMPUT 455 Assignment 1 game engine

Shallow embedding of `src/assignment1/a1.py` (class `CommandInterface`).
The mutable engine state becomes the structure `GameState`; each command
handler becomes a function from a state to a result together with the next
state.  Python `int` cell values and coordinates are embedded as `Int`,
Python `float` (handicap, cutoff, scores) as `ℚ`.  Parsing of string
arguments (`int(...)` / `float(...)` with `try/except ValueError`) is
embedded as `Option`-valued arguments: `none` plays the role of a
`ValueError`.  The one unbounded `while` loop (the run walk in
`_compute_scores`) is embedded with explicit fuel `cols + rows`, an upper
bound on the number of in-bounds steps of any walk.
-/

namespace A1

/-- Engine state: the fields set in `CommandInterface.__init__` /
`init_game`.  `board` is indexed `board[row][col]` exactly as in the
source, with values 0 (empty), 1, 2. -/
@[ext]
structure GameState where
  cols : Nat
  rows : Nat
  cutoff : ℚ
  handicap : ℚ
  board : List (List Int)
  current : Int
  history : List (Int × Int × Int)
  ended : Bool
deriving DecidableEq, Repr

/-- The state built by `CommandInterface.__init__` before any `init_game`. -/
def initialState : GameState :=
  { cols := 0, rows := 0, cutoff := 0, handicap := 0, board := [],
    current := 1, history := [], ended := false }

/-- Read `board[r][c]`; the source only reads in bounds (guarded by
`_in_bounds`), so the out-of-range default 0 is never observable there. -/
def getCell (b : List (List Int)) (c r : Int) : Int :=
  (b.getD r.toNat []).getD c.toNat 0

/-- Write `board[r][c] = v` (out-of-range writes are no-ops; the source
only writes in bounds). -/
def setCell (b : List (List Int)) (c r : Int) (v : Int) : List (List Int) :=
  b.set r.toNat ((b.getD r.toNat []).set c.toNat v)

/-- `_in_bounds(c, r)`. -/
def inBounds (st : GameState) (c r : Int) : Bool :=
  decide (0 ≤ c ∧ c < (st.cols : Int) ∧ 0 ≤ r ∧ r < (st.rows : Int))

/-- `_is_legal(c, r)`. -/
def isLegal (st : GameState) (c r : Int) : Bool :=
  !st.ended && inBounds st c r && (getCell st.board c r == 0)

/-- All `(c, r)` with `r in range(rows)` outer, `c in range(cols)` inner:
the row-major traversal order shared by `_compute_scores`, `_board_full`
and `genmove`. -/
def cellsRowMajor (st : GameState) : List (Int × Int) :=
  (List.range st.rows).flatMap fun r =>
    (List.range st.cols).map fun c => (Int.ofNat c, Int.ofNat r)

/-- The direction list `dirs = [(1, 0), (0, 1), (1, 1), (1, -1)]`:
E, S, SE, NE. -/
def dirs : List (Int × Int) := [(1, 0), (0, 1), (1, 1), (1, -1)]

/-- The `while` walk of `_compute_scores`, with fuel.  Counts how many
consecutive cells from `(c, r)` along `(dc, dr)` are in bounds and hold
`p`. -/
def runLengthAux (st : GameState) (p : Int) (dc dr : Int) : Int → Int → Nat → Nat
  | _, _, 0 => 0
  | c, r, fuel + 1 =>
    if inBounds st c r = true ∧ getCell st.board c r = p then
      1 + runLengthAux st p dc dr (c + dc) (r + dr) fuel
    else 0

/-- Length of the run starting at `(c, r)`.  Fuel `cols + rows` dominates
the walk: every direction strictly increases `c` or `r`, which are bounded
by `cols` resp. `rows` while in bounds. -/
def runLength (st : GameState) (p c r dc dr : Int) : Nat :=
  runLengthAux st p dc dr c r (st.cols + st.rows)

/-- The cells `(c + k*dc, r + k*dr)` for `k < L`: the cells the marking
loop of `_compute_scores` adds to `in_long_line` for a run of length `L`. -/
def runCells (c r dc dr : Int) (L : Nat) : List (Int × Int) :=
  (List.range L).map fun k => (c + (k : Int) * dc, r + (k : Int) * dr)

/-- Accumulator threaded through the first double loop of
`_compute_scores`: the two scores and the `in_long_line` set (as the list
of inserted cells; the source's `set` is only queried after the loop, so
order and multiplicity are immaterial). -/
structure ScanAcc where
  s1 : Nat
  s2 : Nat
  longs : List (Int × Int)
deriving Repr

/-- One iteration of the inner `for dc, dr in dirs` body of
`_compute_scores` at cell `(c, r)` (the `if p == 0: continue` of the outer
loop is folded in as the first test). -/
def scanStep (st : GameState) (acc : ScanAcc) (t : (Int × Int) × (Int × Int)) : ScanAcc :=
  let c := t.1.1
  let r := t.1.2
  let dc := t.2.1
  let dr := t.2.2
  let p := getCell st.board c r
  if p = 0 then acc
  else if inBounds st (c - dc) (r - dr) = true ∧ getCell st.board (c - dc) (r - dr) = p then
    acc
  else
    let L := runLength st p c r dc dr
    if 2 ≤ L then
      let val := 2 ^ (L - 1)
      let acc' : ScanAcc :=
        if p = 1 then { acc with s1 := acc.s1 + val } else { acc with s2 := acc.s2 + val }
      { acc' with longs := acc'.longs ++ runCells c r dc dr L }
    else acc

/-- The `(cell, direction)` pairs visited by the first double loop of
`_compute_scores`, in source order. -/
def scanTriples (st : GameState) : List ((Int × Int) × (Int × Int)) :=
  (cellsRowMajor st).flatMap fun cr => dirs.map fun d => (cr, d)

/-- The first phase of `_compute_scores`: long-run scores and the
`in_long_line` set. -/
def phase1 (st : GameState) : ScanAcc :=
  (scanTriples st).foldl (scanStep st) ⟨0, 0, []⟩

/-- One iteration of the singleton-counting second double loop of
`_compute_scores`. -/
def phase2Step (st : GameState) (longs : List (Int × Int)) (acc : Nat × Nat)
    (cr : Int × Int) : Nat × Nat :=
  let p := getCell st.board cr.1 cr.2
  if p = 0 then acc
  else if cr ∈ longs then acc
  else if p = 1 then (acc.1 + 1, acc.2) else (acc.1, acc.2 + 1)

/-- `_compute_scores` before the final `s2 += self.handicap`: the integer
pair `(s1, s2)`. -/
def computeScoresRaw (st : GameState) : Nat × Nat :=
  let acc := phase1 st
  (cellsRowMajor st).foldl (phase2Step st acc.longs) (acc.s1, acc.s2)

/-- `_compute_scores`: returns `(float(s1), float(s2))` with the handicap
added to player 2. -/
def computeScores (st : GameState) : ℚ × ℚ :=
  let raw := computeScoresRaw st
  ((raw.1 : ℚ), (raw.2 : ℚ) + st.handicap)

/-- `_board_full`. -/
def boardFull (st : GameState) : Bool :=
  (cellsRowMajor st).all fun cr => !(getCell st.board cr.1 cr.2 == 0)

/-- `_game_should_end_after_move(s1, s2)`. -/
def gameShouldEndAfterMove (st : GameState) (s1 s2 : ℚ) : Bool :=
  if st.cutoff = 0 then boardFull st
  else if st.cutoff ≤ s1 ∨ st.cutoff ≤ s2 then true
  else false

/-- `_winner_from_scores(s1, s2)`. -/
def winnerFromScores (st : GameState) (s1 s2 : ℚ) : String :=
  if st.cutoff = 0 then
    if ¬ boardFull st = true then "unknown"
    else if s2 < s1 then "1"
    else if s1 < s2 then "2"
    else "unknown"
  else if st.cutoff ≤ s1 ∨ st.cutoff ≤ s2 then
    if s2 < s1 then "1"
    else if s1 < s2 then "2"
    else "unknown"
  else "unknown"

/-- The `winner` command: recomputes the scores and prints
`_winner_from_scores` on them. -/
def winner (st : GameState) : String :=
  winnerFromScores st (computeScores st).1 (computeScores st).2

/-- `init_game(args)` after the `len(args) != 4` check: the four parsed
arguments, with `none` standing for an `int(...)`/`float(...)`
`ValueError`.  Returns the success flag and the next state; every failure
path returns before mutating, so the prior state is passed through. -/
def init_game (st : GameState) (w h : Option Int) (p s : Option ℚ) :
    Bool × GameState :=
  match w, h, p, s with
  | some w, some h, some p, some s =>
    if ¬ (1 ≤ w ∧ w ≤ 20 ∧ 1 ≤ h ∧ h ≤ 20) then (false, st)
    else if s < 0 then (false, st)
    else (true,
      { cols := w.toNat, rows := h.toNat, handicap := p, cutoff := s,
        board := List.replicate h.toNat (List.replicate w.toNat 0),
        current := 1, history := [], ended := false })
  | _, _, _, _ => (false, st)

/-- The state right after `self.board[r][c] = self.current` and
`self.history.append((c, r, self.current))`, before the end check. -/
def placed (st : GameState) (c r : Int) : GameState :=
  { st with board := setCell st.board c r st.current,
            history := st.history ++ [(c, r, st.current)] }

/-- The post-legality body shared verbatim by `play` and `genmove`
(`genmove`'s comment: "same as play, but we already know it's legal"):
place the stone, append to history, then either set `ended` or flip
`current` according to `_game_should_end_after_move` on the recomputed
scores. -/
def doMove (st : GameState) (c r : Int) : GameState :=
  if gameShouldEndAfterMove (placed st c r) (computeScores (placed st c r)).1
      (computeScores (placed st c r)).2 then
    { placed st c r with ended := true }
  else
    { placed st c r with current := 3 - (placed st c r).current }

/-- `play(args)` after argument parsing: fails (returning the unchanged
state as `none`) unless `_is_legal(c, r)`. -/
def play (st : GameState) (c r : Int) : Option GameState :=
  if isLegal st c r then some (doMove st c r) else none

/-- `undo(args)` with no arguments: pop the last history entry, clear the
cell, restore `current` to the undone move's player, clear `ended`. -/
def undo (st : GameState) : Option GameState :=
  match st.history.getLast? with
  | none => none
  | some (c, r, player) =>
    some { st with history := st.history.dropLast,
                   board := setCell st.board c r 0,
                   current := player,
                   ended := false }

/-- Currently legal moves in row-major order, as enumerated by the list
comprehension in `genmove`. -/
def legalMoves (st : GameState) : List (Int × Int) :=
  (cellsRowMajor st).filter fun cr => isLegal st cr.1 cr.2

/-- Result of the `genmove` command. -/
inductive GenResult where
  | resign : GenResult
  | move : Int → Int → GenResult
deriving DecidableEq, Repr

/-- `genmove(args)`.  `random.choice(moves)` is embedded by an arbitrary
oracle index `k`, reduced modulo the number of legal moves; when no move
is legal the command prints "resign" and succeeds without mutation. -/
def genmove (st : GameState) (k : Nat) : GenResult × GameState :=
  let moves := legalMoves st
  if moves.isEmpty then (GenResult.resign, st)
  else
    let cr := moves.getD (k % moves.length) (0, 0)
    (GenResult.move cr.1 cr.2, doMove st cr.1 cr.2)

/-- `(cell, direction)` pairs at which the scan loop scores a run: the
cell holds a stone, the preceding cell in the direction does not continue
the run backwards (so the cell is the run's start), and the run has
length at least 2. -/
def longRunAt (st : GameState) (t : (Int × Int) × (Int × Int)) : Prop :=
  getCell st.board t.1.1 t.1.2 ≠ 0 ∧
  ¬ (inBounds st (t.1.1 - t.2.1) (t.1.2 - t.2.2) = true ∧
     getCell st.board (t.1.1 - t.2.1) (t.1.2 - t.2.2) = getCell st.board t.1.1 t.1.2) ∧
  2 ≤ runLength st (getCell st.board t.1.1 t.1.2) t.1.1 t.1.2 t.2.1 t.2.2

instance (st : GameState) (t : (Int × Int) × (Int × Int)) : Decidable (longRunAt st t) := by
  unfold longRunAt
  infer_instance

/-- The cells one `scanStep` appends to the `in_long_line` list. -/
def longCells (st : GameState) (t : (Int × Int) × (Int × Int)) : List (Int × Int) :=
  if longRunAt st t then
    runCells t.1.1 t.1.2 t.2.1 t.2.2
      (runLength st (getCell st.board t.1.1 t.1.2) t.1.1 t.1.2 t.2.1 t.2.2)
  else []

/-- What one `scanStep` adds to `s1`. -/
def contrib1 (st : GameState) (t : (Int × Int) × (Int × Int)) : Nat :=
  if longRunAt st t ∧ getCell st.board t.1.1 t.1.2 = 1 then
    2 ^ (runLength st (getCell st.board t.1.1 t.1.2) t.1.1 t.1.2 t.2.1 t.2.2 - 1)
  else 0

/-- What one `scanStep` adds to `s2`. -/
def contrib2 (st : GameState) (t : (Int × Int) × (Int × Int)) : Nat :=
  if longRunAt st t ∧ getCell st.board t.1.1 t.1.2 ≠ 1 then
    2 ^ (runLength st (getCell st.board t.1.1 t.1.2) t.1.1 t.1.2 t.2.1 t.2.2 - 1)
  else 0

/-- Spec-side definition (from the `Score` paragraph of the design spec):
the amount a maximal run of player `q` starting at `t.1` in direction
`t.2` contributes — `2^(L-1)` when the start cell holds `q`, the cell
immediately preceding it in that direction is out of bounds or not `q`,
and the run length `L` is at least 2. -/
def specContribution (st : GameState) (q : Int) (t : (Int × Int) × (Int × Int)) : Nat :=
  if getCell st.board t.1.1 t.1.2 = q ∧
     ¬ (inBounds st (t.1.1 - t.2.1) (t.1.2 - t.2.2) = true ∧
        getCell st.board (t.1.1 - t.2.1) (t.1.2 - t.2.2) = q) ∧
     2 ≤ runLength st q t.1.1 t.1.2 t.2.1 t.2.2 then
    2 ^ (runLength st q t.1.1 t.1.2 t.2.1 t.2.2 - 1)
  else 0

/-- Spec-side: total long-line score of player `q` — the sum of
`2^(L-1)` over all maximal runs of `q` of length `L ≥ 2` in the four
directions. -/
def specLineScore (st : GameState) (q : Int) : Nat :=
  ((scanTriples st).map (specContribution st q)).sum

/-- Spec-side: cell `x` lies on some maximal run of length at least 2
(is marked "in a long line"). -/
def specCovered (st : GameState) (x : Int × Int) : Prop :=
  ∃ t ∈ scanTriples st, longRunAt st t ∧
    x ∈ runCells t.1.1 t.1.2 t.2.1 t.2.2
      (runLength st (getCell st.board t.1.1 t.1.2) t.1.1 t.1.2 t.2.1 t.2.2)

instance (st : GameState) (x : Int × Int) : Decidable (specCovered st x) := by
  unfold specCovered
  infer_instance

/-- Spec-side: number of occupied cells of player `q` not lying on any
long line — each contributes `+1`. -/
def specSingletonScore (st : GameState) (q : Int) : Nat :=
  ((cellsRowMajor st).filter fun cr =>
    decide (getCell st.board cr.1 cr.2 = q ∧ ¬ specCovered st cr)).length

/-- Every cell value on the board is 0, 1 or 2 (the data model of the
spec; established for all reachable states below). -/
def boardValid (st : GameState) : Prop :=
  ∀ row ∈ st.board, ∀ v ∈ row, v = 0 ∨ v = 1 ∨ v = 2

instance (st : GameState) : Decidable (boardValid st) := by
  unfold boardValid
  infer_instance

/-- Exchange the two players' stones in a cell value. -/
def swapVal (v : Int) : Int :=
  if v = 1 then 2 else if v = 2 then 1 else 0

/-- Exchange which player occupies every cell. -/
def swapPlayers (st : GameState) : GameState :=
  { st with board := st.board.map fun row => row.map swapVal }

/-- Number of occupied cells of the board. -/
def occupiedCount (st : GameState) : Nat :=
  ((cellsRowMajor st).filter fun cr => !(getCell st.board cr.1 cr.2 == 0)).length

/-- A 1×1 game with cutoff 0 (the spec's first scenario). -/
def demoBase : GameState :=
  (init_game initialState (some 1) (some 1) (some 0) (some 0)).2

/-- A 1×1 game with cutoff 5. -/
def demoCutoff : GameState :=
  (init_game initialState (some 1) (some 1) (some 0) (some 5)).2

/-- A 2×1 game with cutoff 0 after player 1 plays (0, 0). -/
def demoState : GameState :=
  doMove (init_game initialState (some 2) (some 1) (some 0) (some 0)).2 0 0

/-- States reachable after a successful `init_game` through successful
`play` / `genmove` / `undo` commands. -/
inductive Reachable : GameState → Prop where
  | init : ∀ st w h p s st',
      init_game st (some w) (some h) (some p) (some s) = (true, st') → Reachable st'
  | play : ∀ st c r st', Reachable st → play st c r = some st' → Reachable st'
  | gen : ∀ st k res st', Reachable st → genmove st k = (res, st') → Reachable st'
  | undo : ∀ st st', Reachable st → undo st = some st' → Reachable st'

/-- The state invariant maintained by every engine operation. -/
structure Inv (st : GameState) : Prop where
  current_ok : st.current = 1 ∨ st.current = 2
  shape_rows : st.board.length = st.rows
  shape_cols : ∀ row ∈ st.board, row.length = st.cols
  cells_ok : boardValid st
  hist_count : st.history.length = occupiedCount st
  hist_cells : ∀ e ∈ st.history,
    inBounds st e.1 e.2.1 = true ∧ getCell st.board e.1 e.2.1 = e.2.2 ∧
      (e.2.2 = 1 ∨ e.2.2 = 2)
  hist_nodup : (st.history.map fun e => (e.1, e.2.1)).Nodup
  cutoff_ok : 0 ≤ st.cutoff

/-! ## Basic list helpers -/

theorem set_getD_eq_self {α : Type} (l : List α) (n : Nat) (d : α) :
    l.set n (l.getD n d) = l := by
  induction l generalizing n with
  | nil => rfl
  | cons a t ih =>
    cases n with
    | zero => rfl
    | succ m => rw [List.getD_cons_succ, List.set_cons_succ, ih m]

theorem getD_set_self {α : Type} (l : List α) (n : Nat) (v d : α)
    (h : n < l.length) : (l.set n v).getD n d = v := by
  rw [List.getD_eq_getElem?_getD, List.getElem?_set_self h]
  rfl

theorem getD_set_ne {α : Type} (l : List α) {m n : Nat} (v d : α)
    (h : m ≠ n) : (l.set m v).getD n d = l.getD n d := by
  rw [List.getD_eq_getElem?_getD, List.getElem?_set_ne h,
    ← List.getD_eq_getElem?_getD]

theorem foldl_fixed {α β : Type} (f : β → α → β) (l : List α) (b : β)
    (h : ∀ a ∈ l, ∀ acc, f acc a = acc) : l.foldl f b = b := by
  induction l generalizing b with
  | nil => rfl
  | cons x t ih =>
    rw [List.foldl_cons, h x (by simp)]
    exact ih b fun a ha acc => h a (by simp [ha]) acc

/-! ## Cell access and update -/

theorem getCell_setCell_self (b : List (List Int)) (c r : Int) (v : Int)
    (hr : r.toNat < b.length) (hc : c.toNat < (b.getD r.toNat []).length) :
    getCell (setCell b c r v) c r = v := by
  unfold getCell setCell
  rw [getD_set_self _ _ _ _ hr, getD_set_self _ _ _ _ hc]

theorem getCell_setCell_ne (b : List (List Int)) (c r c' r' : Int) (v : Int)
    (h : c'.toNat ≠ c.toNat ∨ r'.toNat ≠ r.toNat) :
    getCell (setCell b c r v) c' r' = getCell b c' r' := by
  unfold getCell setCell
  rcases h with h | h
  · by_cases hrr : r'.toNat = r.toNat
    · rw [hrr]
      by_cases hlt : r.toNat < b.length
      · rw [getD_set_self _ _ _ _ hlt, getD_set_ne _ _ _ (Ne.symm h)]
      · rw [List.set_eq_of_length_le (Nat.le_of_not_lt hlt)]
    · rw [getD_set_ne _ _ _ (Ne.symm hrr)]
  · rw [getD_set_ne _ _ _ (Ne.symm h)]

theorem setCell_setCell_cancel (b : List (List Int)) (c r : Int) (v : Int)
    (h : getCell b c r = 0) : setCell (setCell b c r v) c r 0 = b := by
  unfold getCell at h
  unfold setCell
  by_cases hr : r.toNat < b.length
  · rw [getD_set_self _ _ _ _ hr, List.set_set, List.set_set]
    have hrow : (b.getD r.toNat []).set c.toNat 0 = b.getD r.toNat [] := by
      have h2 := set_getD_eq_self (b.getD r.toNat []) c.toNat 0
      rwa [h] at h2
    rw [hrow]
    exact set_getD_eq_self b r.toNat []
  · have hle := Nat.le_of_not_lt hr
    rw [List.set_eq_of_length_le hle, List.set_eq_of_length_le hle]

theorem setCell_length (b : List (List Int)) (c r : Int) (v : Int) :
    (setCell b c r v).length = b.length := by
  unfold setCell
  exact List.length_set ..

/-! ## The row-major cell enumeration -/

theorem mem_cellsRowMajor (st : GameState) (cr : Int × Int) :
    cr ∈ cellsRowMajor st ↔ inBounds st cr.1 cr.2 = true := by
  obtain ⟨x, y⟩ := cr
  unfold cellsRowMajor inBounds
  rw [List.mem_flatMap, decide_eq_true_eq]
  constructor
  · rintro ⟨r, hr, hmem⟩
    rw [List.mem_map] at hmem
    obtain ⟨c, hc, heq⟩ := hmem
    rw [List.mem_range] at hr hc
    rw [Prod.mk.injEq] at heq
    obtain ⟨h1, h2⟩ := heq
    simp only [Int.ofNat_eq_natCast] at h1 h2
    refine ⟨?_, ?_, ?_, ?_⟩ <;> omega
  · rintro ⟨h1, h2, h3, h4⟩
    refine ⟨y.toNat, ?_, ?_⟩
    · rw [List.mem_range]; omega
    · rw [List.mem_map]
      refine ⟨x.toNat, ?_, ?_⟩
      · rw [List.mem_range]; omega
      · show (Int.ofNat x.toNat, Int.ofNat y.toNat) = (x, y)
        rw [Prod.mk.injEq]
        simp only [Int.ofNat_eq_natCast]
        omega

theorem nodup_cellsRowMajor (st : GameState) : (cellsRowMajor st).Nodup := by
  unfold cellsRowMajor
  rw [List.nodup_flatMap]
  constructor
  · intro r _
    refine List.Nodup.map ?_ (List.nodup_range _)
    intro a b hab
    rw [Prod.mk.injEq] at hab
    simp only [Int.ofNat_eq_natCast] at hab
    omega
  · refine List.Pairwise.imp ?_ (List.pairwise_lt_range _)
    intro a b hab x hxa hxb
    rw [List.mem_map] at hxa hxb
    obtain ⟨c1, _, h1⟩ := hxa
    obtain ⟨c2, _, h2⟩ := hxb
    rw [← h2, Prod.mk.injEq] at h1
    simp only [Int.ofNat_eq_natCast] at h1
    omega

/-! ## C5: legality of a move -/

/-- C5: `IsLegal(c, r)` returns true iff the game has not ended, the
coordinates are in bounds (`0 ≤ c < cols`, `0 ≤ r < rows`) and the cell
is empty. -/
theorem isLegal_iff (st : GameState) (c r : Int) :
    isLegal st c r = true ↔
      st.ended = false ∧ 0 ≤ c ∧ c < (st.cols : Int) ∧ 0 ≤ r ∧
        r < (st.rows : Int) ∧ getCell st.board c r = 0 := by
  unfold isLegal inBounds
  simp only [Bool.and_eq_true, Bool.not_eq_true', decide_eq_true_eq,
    beq_iff_eq]
  tauto

/-! ## C6: init_game argument validation -/

theorem init_game_rejects (st : GameState) :
    (∀ h p s, init_game st none h p s = (false, st)) ∧
    (∀ w p s, init_game st w none p s = (false, st)) ∧
    (∀ w h s, init_game st w h none s = (false, st)) ∧
    (∀ w h p, init_game st w h p none = (false, st)) ∧
    (∀ (w : Int) h p s, ¬ (1 ≤ w ∧ w ≤ 20) →
      init_game st (some w) h p s = (false, st)) ∧
    (∀ w (a : Int) p s, ¬ (1 ≤ a ∧ a ≤ 20) →
      init_game st w (some a) p s = (false, st)) ∧
    (∀ w h p (s : ℚ), s < 0 → init_game st w h p (some s) = (false, st)) := by
  refine ⟨?_, ?_, ?_, ?_, ?_, ?_, ?_⟩
  · intro h p s
    cases h <;> cases p <;> cases s <;> rfl
  · intro w p s
    cases w <;> cases p <;> cases s <;> rfl
  · intro w h s
    cases w <;> cases h <;> cases s <;> rfl
  · intro w h p
    cases w <;> cases h <;> cases p <;> rfl
  · intro w h p s hw
    cases h <;> cases p <;> cases s <;> try rfl
    simp only [init_game]
    rw [if_pos (by tauto)]
  · intro w a p s ha
    cases w <;> cases p <;> cases s <;> try rfl
    simp only [init_game]
    rw [if_pos (by tauto)]
  · intro w h p s hs
    cases w with
    | none => rfl
    | some wv =>
      cases h with
      | none => rfl
      | some hv =>
        cases p with
        | none => rfl
        | some pv =>
          simp only [init_game]
          by_cases hcond : ¬ (1 ≤ wv ∧ wv ≤ 20 ∧ 1 ≤ hv ∧ hv ≤ 20)
          · rw [if_pos hcond]
          · rw [if_neg hcond, if_pos hs]

theorem getD_replicate {α : Type} (n : Nat) (a : α) (i : Nat) (d : α) :
    (List.replicate n a).getD i d = if i < n then a else d := by
  rw [List.getD_eq_getElem?_getD, List.getElem?_replicate]
  split
  · rfl
  · rfl

theorem getCell_replicate (w h : Nat) (c r : Int) :
    getCell (List.replicate h (List.replicate w (0 : Int))) c r = 0 := by
  unfold getCell
  rw [getD_replicate]
  split
  · rw [getD_replicate]
    split
    · rfl
    · rfl
  · rfl

theorem computeScoresRaw_of_empty (st : GameState)
    (h0 : ∀ c r, getCell st.board c r = 0) : computeScoresRaw st = (0, 0) := by
  unfold computeScoresRaw
  have hp1 : phase1 st = ⟨0, 0, []⟩ := by
    unfold phase1
    refine foldl_fixed _ _ _ ?_
    intro t _ acc
    unfold scanStep
    rw [if_pos (h0 t.1.1 t.1.2)]
  rw [hp1]
  refine foldl_fixed _ _ _ ?_
  intro cr _ acc
  unfold phase2Step
  rw [if_pos (h0 cr.1 cr.2)]

/-- C9: `init_game` validates only dimensions and cutoff; any handicap,
negative included, is accepted, stored, and added to player 2's score. -/
theorem init_game_accepts_any_handicap (st : GameState) (w h : Int) (p s : ℚ)
    (hw1 : 1 ≤ w) (hw2 : w ≤ 20) (hh1 : 1 ≤ h) (hh2 : h ≤ 20) (hs : 0 ≤ s) :
    ∃ st', init_game st (some w) (some h) (some p) (some s) = (true, st') ∧
      st'.handicap = p ∧ computeScores st' = (0, p) := by
  simp only [init_game]
  rw [if_neg (not_not_intro ⟨hw1, hw2, hh1, hh2⟩), if_neg (not_lt.mpr hs)]
  refine ⟨_, rfl, rfl, ?_⟩
  unfold computeScores
  rw [computeScoresRaw_of_empty _ fun c r => getCell_replicate ..]
  show ((0 : ℚ), (0 : ℚ) + p) = (0, p)
  rw [zero_add]

/-! ## C3: play followed by undo restores the state -/

/-- C3: if `Play(c, r)` succeeds then `Undo` succeeds and restores the
board, current player, ended flag and history to their pre-play values
(all other fields are untouched by both). -/
theorem play_then_undo (st st' : GameState) (c r : Int)
    (hp : play st c r = some st') : undo st' = some st := by
  unfold play at hp
  by_cases hleg : isLegal st c r = true
  · rw [if_pos hleg, Option.some_inj] at hp
    obtain ⟨hend, _, _, _, _, hcell⟩ := (isLegal_iff st c r).mp hleg
    subst hp
    unfold doMove
    split
    all_goals
      simp only [undo, placed, List.getLast?_concat]
      rw [Option.some_inj]
      refine GameState.ext rfl rfl rfl rfl ?_ rfl ?_ ?_
      · exact setCell_setCell_cancel _ _ _ _ hcell
      · exact List.dropLast_concat
      · exact hend.symm
  · rw [if_neg hleg] at hp
    exact absurd hp (by simp)

/-! ## C8: genmove with no legal move resigns without mutation -/

/-- C8: when no cell is legal, `genmove` reports resign (a successful
outcome) and leaves the state unchanged. -/
theorem genmove_resign (st : GameState) (k : Nat)
    (h : ∀ c r, isLegal st c r = false) :
    genmove st k = (GenResult.resign, st) := by
  have hm : legalMoves st = [] := by
    unfold legalMoves
    rw [List.filter_eq_nil_iff]
    intro a _
    rw [h a.1 a.2]
    simp
  unfold genmove
  rw [hm]
  rfl

/-- Witness for C5-companion use and C6: rejecting out-of-range columns
leaves the prior state unchanged at a concrete input. -/
theorem init_game_rejects_witness :
    init_game initialState (some 0) (some 1) (some 0) (some 0)
      = (false, initialState) :=
  (init_game_rejects initialState).2.2.2.2.1 0 (some 1) (some 0) (some 0)
    (by decide)

/-- Witness for C9 at a concrete negative handicap. -/
theorem init_game_accepts_any_handicap_witness :
    ∃ st', init_game initialState (some 1) (some 1) (some (-5)) (some 0)
        = (true, st') ∧ st'.handicap = -5 ∧ computeScores st' = (0, -5) :=
  init_game_accepts_any_handicap initialState 1 1 (-5) 0 (by decide)
    (by decide) (by decide) (by decide) (by decide)

/-- Witness for C3 on a concrete 1×1 game. -/
theorem play_then_undo_witness :
    play (init_game initialState (some 1) (some 1) (some 0) (some 0)).2 0 0
        = some (doMove (init_game initialState (some 1) (some 1) (some 0)
          (some 0)).2 0 0) ∧
      undo (doMove (init_game initialState (some 1) (some 1) (some 0)
          (some 0)).2 0 0)
        = some (init_game initialState (some 1) (some 1) (some 0) (some 0)).2 :=
  ⟨by decide, play_then_undo _ _ 0 0 (by decide)⟩

/-- Witness for C8 on a concrete state with no legal move. -/
theorem genmove_resign_witness :
    genmove { initialState with ended := true } 0
      = (GenResult.resign, { initialState with ended := true }) :=
  genmove_resign { initialState with ended := true } 0 fun _ _ => rfl

/-! ## Characterizing the two scoring loops -/

theorem scanStep_eq (st : GameState) (acc : ScanAcc)
    (t : (Int × Int) × (Int × Int)) :
    scanStep st acc t =
      ⟨acc.s1 + contrib1 st t, acc.s2 + contrib2 st t,
        acc.longs ++ longCells st t⟩ := by
  obtain ⟨a1, a2, al⟩ := acc
  simp only [scanStep, contrib1, contrib2, longCells]
  by_cases h0 : getCell st.board t.1.1 t.1.2 = 0
  · have hnl : ¬ longRunAt st t := fun hl => hl.1 h0
    rw [if_pos h0, if_neg fun hc => hnl hc.1, if_neg fun hc => hnl hc.1,
      if_neg hnl]
    simp
  · rw [if_neg h0]
    by_cases hpred : inBounds st (t.1.1 - t.2.1) (t.1.2 - t.2.2) = true ∧
        getCell st.board (t.1.1 - t.2.1) (t.1.2 - t.2.2)
          = getCell st.board t.1.1 t.1.2
    · have hnl : ¬ longRunAt st t := fun hl => hl.2.1 hpred
      rw [if_pos hpred, if_neg fun hc => hnl hc.1, if_neg fun hc => hnl hc.1,
        if_neg hnl]
      simp
    · rw [if_neg hpred]
      by_cases hL : 2 ≤ runLength st (getCell st.board t.1.1 t.1.2) t.1.1
          t.1.2 t.2.1 t.2.2
      · have hl : longRunAt st t := ⟨h0, hpred, hL⟩
        rw [if_pos hL, if_pos hl]
        by_cases hp1 : getCell st.board t.1.1 t.1.2 = 1
        · rw [if_pos hp1, if_pos ⟨hl, hp1⟩, if_neg fun hc => hc.2 hp1]
          simp
        · rw [if_neg hp1, if_neg fun hc => hp1 hc.2, if_pos ⟨hl, hp1⟩]
          simp
      · have hnl : ¬ longRunAt st t := fun hl => hL hl.2.2
        rw [if_neg hL, if_neg fun hc => hnl hc.1, if_neg fun hc => hnl hc.1,
          if_neg hnl]
        simp

theorem foldl_scanStep (st : GameState) (l : List ((Int × Int) × (Int × Int)))
    (acc : ScanAcc) :
    l.foldl (scanStep st) acc =
      ⟨acc.s1 + (l.map (contrib1 st)).sum, acc.s2 + (l.map (contrib2 st)).sum,
        acc.longs ++ l.flatMap (longCells st)⟩ := by
  induction l generalizing acc with
  | nil => obtain ⟨a1, a2, al⟩ := acc; simp
  | cons x xs ih =>
    rw [List.foldl_cons, ih, scanStep_eq]
    simp [Nat.add_assoc]

theorem phase1_eq (st : GameState) :
    phase1 st =
      ⟨((scanTriples st).map (contrib1 st)).sum,
        ((scanTriples st).map (contrib2 st)).sum,
        (scanTriples st).flatMap (longCells st)⟩ := by
  unfold phase1
  rw [foldl_scanStep]
  simp

theorem mem_phase1_longs (st : GameState) (x : Int × Int) :
    x ∈ (phase1 st).longs ↔ specCovered st x := by
  rw [phase1_eq]
  show x ∈ (scanTriples st).flatMap (longCells st) ↔ _
  rw [List.mem_flatMap]
  unfold specCovered
  constructor
  · rintro ⟨t, ht, hx⟩
    unfold longCells at hx
    by_cases hl : longRunAt st t
    · rw [if_pos hl] at hx
      exact ⟨t, ht, hl, hx⟩
    · rw [if_neg hl] at hx
      exact absurd hx (List.not_mem_nil x)
  · rintro ⟨t, ht, hl, hx⟩
    refine ⟨t, ht, ?_⟩
    unfold longCells
    rw [if_pos hl]
    exact hx

theorem foldl_phase2Step (st : GameState) (longs : List (Int × Int))
    (l : List (Int × Int)) (a b : Nat) :
    l.foldl (phase2Step st longs) (a, b) =
      (a + l.countP (fun cr =>
          decide (getCell st.board cr.1 cr.2 = 1 ∧ cr ∉ longs)),
       b + l.countP (fun cr =>
          decide (getCell st.board cr.1 cr.2 ≠ 0 ∧
            getCell st.board cr.1 cr.2 ≠ 1 ∧ cr ∉ longs))) := by
  induction l generalizing a b with
  | nil => simp
  | cons x xs ih =>
    by_cases h0 : getCell st.board x.1 x.2 = 0
    · have hs : phase2Step st longs (a, b) x = (a, b) := by
        unfold phase2Step
        rw [if_pos h0]
      rw [List.foldl_cons, hs, ih, List.countP_cons, List.countP_cons]
      have e1 : decide (getCell st.board x.1 x.2 = 1 ∧ x ∉ longs) = false := by
        simp [h0]
      have e2 : decide (getCell st.board x.1 x.2 ≠ 0 ∧
          getCell st.board x.1 x.2 ≠ 1 ∧ x ∉ longs) = false := by
        simp [h0]
      simp only [e1, e2]
      simp
    · by_cases hmem : x ∈ longs
      · have hs : phase2Step st longs (a, b) x = (a, b) := by
          unfold phase2Step
          rw [if_neg h0, if_pos hmem]
        rw [List.foldl_cons, hs, ih, List.countP_cons, List.countP_cons]
        have e1 : decide (getCell st.board x.1 x.2 = 1 ∧ x ∉ longs) = false := by
          simp [hmem]
        have e2 : decide (getCell st.board x.1 x.2 ≠ 0 ∧
            getCell st.board x.1 x.2 ≠ 1 ∧ x ∉ longs) = false := by
          simp [hmem]
        simp only [e1, e2]
        simp
      · by_cases hp1 : getCell st.board x.1 x.2 = 1
        · have hs : phase2Step st longs (a, b) x = (a + 1, b) := by
            unfold phase2Step
            rw [if_neg h0, if_neg hmem, if_pos hp1]
          rw [List.foldl_cons, hs, ih, List.countP_cons, List.countP_cons]
          have e1 : decide (getCell st.board x.1 x.2 = 1 ∧ x ∉ longs)
              = true := by
            simp [hp1, hmem]
          have e2 : decide (getCell st.board x.1 x.2 ≠ 0 ∧
              getCell st.board x.1 x.2 ≠ 1 ∧ x ∉ longs) = false := by
            simp [hp1]
          simp only [e1, e2]
          rw [Prod.mk.injEq]
          constructor
          · simp
            omega
          · simp
        · have hs : phase2Step st longs (a, b) x = (a, b + 1) := by
            unfold phase2Step
            rw [if_neg h0, if_neg hmem, if_neg hp1]
          rw [List.foldl_cons, hs, ih, List.countP_cons, List.countP_cons]
          have e1 : decide (getCell st.board x.1 x.2 = 1 ∧ x ∉ longs)
              = false := by
            simp [hp1]
          have e2 : decide (getCell st.board x.1 x.2 ≠ 0 ∧
              getCell st.board x.1 x.2 ≠ 1 ∧ x ∉ longs) = true := by
            simp [h0, hp1, hmem]
          simp only [e1, e2]
          rw [Prod.mk.injEq]
          constructor
          · simp
          · simp
            omega

theorem getD_mem_or_default {α : Type} (l : List α) (n : Nat) (d : α) :
    l.getD n d ∈ l ∨ l.getD n d = d := by
  by_cases h : n < l.length
  · rw [List.getD_eq_getElem _ _ h]
    exact Or.inl (List.getElem_mem h)
  · exact Or.inr (List.getD_eq_default _ _ (Nat.le_of_not_lt h))

theorem getCell_valid (st : GameState) (hv : boardValid st) (c r : Int) :
    getCell st.board c r = 0 ∨ getCell st.board c r = 1 ∨
      getCell st.board c r = 2 := by
  unfold getCell
  rcases getD_mem_or_default st.board r.toNat [] with hrow | hrow
  · rcases getD_mem_or_default (st.board.getD r.toNat []) c.toNat 0 with hel | hel
    · exact hv _ hrow _ hel
    · rw [hel]
      exact Or.inl rfl
  · rw [hrow]
    exact Or.inl rfl

theorem contrib1_eq_spec (st : GameState) (t : (Int × Int) × (Int × Int)) :
    contrib1 st t = specContribution st 1 t := by
  unfold contrib1 specContribution longRunAt
  by_cases hp : getCell st.board t.1.1 t.1.2 = 1
  · simp only [hp]
    by_cases hc : ¬ (inBounds st (t.1.1 - t.2.1) (t.1.2 - t.2.2) = true ∧
        getCell st.board (t.1.1 - t.2.1) (t.1.2 - t.2.2) = 1) ∧
        2 ≤ runLength st 1 t.1.1 t.1.2 t.2.1 t.2.2
    · rw [if_pos ⟨⟨by decide, hc.1, hc.2⟩, trivial⟩, if_pos ⟨trivial, hc.1, hc.2⟩]
    · rw [if_neg fun hh => hc ⟨hh.1.2.1, hh.1.2.2⟩,
        if_neg fun hh => hc ⟨hh.2.1, hh.2.2⟩]
  · rw [if_neg fun hh => hp hh.2, if_neg fun hh => hp hh.1]

theorem contrib2_eq_spec (st : GameState) (hv : boardValid st)
    (t : (Int × Int) × (Int × Int)) :
    contrib2 st t = specContribution st 2 t := by
  unfold contrib2 specContribution longRunAt
  by_cases hp : getCell st.board t.1.1 t.1.2 = 2
  · simp only [hp]
    by_cases hc : ¬ (inBounds st (t.1.1 - t.2.1) (t.1.2 - t.2.2) = true ∧
        getCell st.board (t.1.1 - t.2.1) (t.1.2 - t.2.2) = 2) ∧
        2 ≤ runLength st 2 t.1.1 t.1.2 t.2.1 t.2.2
    · rw [if_pos ⟨⟨by decide, hc.1, hc.2⟩, by decide⟩, if_pos ⟨trivial, hc.1, hc.2⟩]
    · rw [if_neg fun hh => hc ⟨hh.1.2.1, hh.1.2.2⟩,
        if_neg fun hh => hc ⟨hh.2.1, hh.2.2⟩]
  · have hp1 : getCell st.board t.1.1 t.1.2 ≠ 1 → getCell st.board t.1.1 t.1.2 ≠ 0 →
        False := by
      intro h1 h0
      rcases getCell_valid st hv t.1.1 t.1.2 with h | h | h
      · exact h0 h
      · exact h1 h
      · exact hp h
    rw [if_neg fun hh => hp1 hh.2 hh.1.1, if_neg fun hh => hp hh.1]

/-- `_compute_scores`' integer pair equals the spec-side scores: for each
player, the sum over maximal runs of length `L ≥ 2` of `2^(L-1)` plus one
point per stone of that player on no long line. -/
theorem computeScoresRaw_eq_spec (st : GameState) (hv : boardValid st) :
    computeScoresRaw st =
      (specLineScore st 1 + specSingletonScore st 1,
       specLineScore st 2 + specSingletonScore st 2) := by
  unfold computeScoresRaw
  rw [phase1_eq]
  show (cellsRowMajor st).foldl
      (phase2Step st ((scanTriples st).flatMap (longCells st))) _ = _
  rw [foldl_phase2Step]
  have hcov : ∀ cr : Int × Int,
      cr ∉ (scanTriples st).flatMap (longCells st) ↔ ¬ specCovered st cr := by
    intro cr
    have h := mem_phase1_longs st cr
    rw [phase1_eq] at h
    exact not_congr h
  rw [Prod.mk.injEq]
  constructor
  · have hc1 : ((scanTriples st).map (contrib1 st)).sum = specLineScore st 1 := by
      unfold specLineScore
      exact congrArg List.sum (List.map_congr_left fun t _ => contrib1_eq_spec st t)
    have hs1 : (cellsRowMajor st).countP (fun cr =>
        decide (getCell st.board cr.1 cr.2 = 1 ∧
          cr ∉ (scanTriples st).flatMap (longCells st)))
        = specSingletonScore st 1 := by
      unfold specSingletonScore
      rw [← List.countP_eq_length_filter]
      refine List.countP_congr fun cr _ => ?_
      simp only [decide_eq_true_eq]
      exact and_congr_right fun _ => hcov cr
    rw [hc1, hs1]
  · have hc2 : ((scanTriples st).map (contrib2 st)).sum = specLineScore st 2 := by
      unfold specLineScore
      exact congrArg List.sum (List.map_congr_left fun t _ => contrib2_eq_spec st hv t)
    have hs2 : (cellsRowMajor st).countP (fun cr =>
        decide (getCell st.board cr.1 cr.2 ≠ 0 ∧ getCell st.board cr.1 cr.2 ≠ 1 ∧
          cr ∉ (scanTriples st).flatMap (longCells st)))
        = specSingletonScore st 2 := by
      unfold specSingletonScore
      rw [← List.countP_eq_length_filter]
      refine List.countP_congr fun cr _ => ?_
      simp only [decide_eq_true_eq]
      constructor
      · rintro ⟨h0, h1, hc⟩
        rcases getCell_valid st hv cr.1 cr.2 with h | h | h
        · exact absurd h h0
        · exact absurd h h1
        · exact ⟨h, (hcov cr).mp hc⟩
      · rintro ⟨h2, hc⟩
        rw [h2]
        exact ⟨by decide, by decide, (hcov cr).mpr hc⟩
    rw [hc2, hs2]

/-! ## C7: player-swap symmetry of the handicap-free scores -/

theorem getD_map {α β : Type} (f : α → β) (l : List α) (n : Nat) (d : α) :
    (l.map f).getD n (f d) = f (l.getD n d) := by
  by_cases h : n < l.length
  · rw [List.getD_eq_getElem _ _ (by simpa using h), List.getD_eq_getElem _ _ h,
      List.getElem_map]
  · rw [List.getD_eq_default _ _ (by simpa using Nat.le_of_not_lt h),
      List.getD_eq_default _ _ (Nat.le_of_not_lt h)]

theorem getCell_swap (st : GameState) (c r : Int) :
    getCell (swapPlayers st).board c r = swapVal (getCell st.board c r) := by
  show getCell (st.board.map fun row => row.map swapVal) c r = _
  unfold getCell
  rw [show ([] : List Int) = List.map swapVal [] from rfl, getD_map,
    show (0 : Int) = swapVal 0 from rfl, getD_map]
  rfl

theorem swapVal_valid (v : Int) :
    swapVal v = 0 ∨ swapVal v = 1 ∨ swapVal v = 2 := by
  unfold swapVal
  split
  · exact Or.inr (Or.inr rfl)
  · split
    · exact Or.inr (Or.inl rfl)
    · exact Or.inl rfl

theorem boardValid_swap (st : GameState) : boardValid (swapPlayers st) := by
  intro row hrow v hv
  have hrow' : row ∈ st.board.map fun row => row.map swapVal := hrow
  rw [List.mem_map] at hrow'
  obtain ⟨row0, _, rfl⟩ := hrow'
  rw [List.mem_map] at hv
  obtain ⟨v0, _, rfl⟩ := hv
  exact swapVal_valid v0

theorem swapVal_eq_iff (x y : Int) (hx : x = 0 ∨ x = 1 ∨ x = 2)
    (hy : y = 0 ∨ y = 1 ∨ y = 2) : swapVal x = swapVal y ↔ x = y := by
  rcases hx with rfl | rfl | rfl <;> rcases hy with rfl | rfl | rfl <;>
    simp [swapVal]

theorem getCell_swap_eq_iff (st : GameState) (hv : boardValid st)
    (c r : Int) (q : Int) (hq : q = 0 ∨ q = 1 ∨ q = 2) :
    getCell (swapPlayers st).board c r = swapVal q ↔
      getCell st.board c r = q := by
  rw [getCell_swap]
  exact swapVal_eq_iff _ _ (getCell_valid st hv c r) hq

theorem runLengthAux_swap (st : GameState) (hv : boardValid st) (p : Int)
    (hp : p = 0 ∨ p = 1 ∨ p = 2) (dc dr : Int) (fuel : Nat) : ∀ c r : Int,
    runLengthAux (swapPlayers st) (swapVal p) dc dr c r fuel
      = runLengthAux st p dc dr c r fuel := by
  induction fuel with
  | zero => intro c r; rfl
  | succ n ih =>
    intro c r
    have hb : inBounds (swapPlayers st) c r = inBounds st c r := rfl
    rw [runLengthAux, runLengthAux]
    refine if_congr (and_congr (by rw [hb])
      (getCell_swap_eq_iff st hv c r p hp)) ?_ rfl
    rw [ih]

theorem runLength_swap (st : GameState) (hv : boardValid st) (p : Int)
    (hp : p = 0 ∨ p = 1 ∨ p = 2) (c r dc dr : Int) :
    runLength (swapPlayers st) (swapVal p) c r dc dr
      = runLength st p c r dc dr := by
  unfold runLength
  show runLengthAux (swapPlayers st) (swapVal p) dc dr c r
      ((swapPlayers st).cols + (swapPlayers st).rows) = _
  have hdim : (swapPlayers st).cols + (swapPlayers st).rows
      = st.cols + st.rows := rfl
  rw [hdim, runLengthAux_swap st hv p hp dc dr]

theorem specContribution_swap (st : GameState) (hv : boardValid st)
    (q : Int) (hq : q = 0 ∨ q = 1 ∨ q = 2) (t : (Int × Int) × (Int × Int)) :
    specContribution (swapPlayers st) (swapVal q) t
      = specContribution st q t := by
  unfold specContribution
  have hb : inBounds (swapPlayers st) (t.1.1 - t.2.1) (t.1.2 - t.2.2)
      = inBounds st (t.1.1 - t.2.1) (t.1.2 - t.2.2) := rfl
  have hrl : runLength (swapPlayers st) (swapVal q) t.1.1 t.1.2 t.2.1 t.2.2
      = runLength st q t.1.1 t.1.2 t.2.1 t.2.2 := runLength_swap st hv q hq ..
  refine if_congr (and_congr (getCell_swap_eq_iff st hv _ _ q hq)
    (and_congr (not_congr (and_congr (by rw [hb])
      (getCell_swap_eq_iff st hv _ _ q hq))) (by rw [hrl]))) (by rw [hrl]) rfl

theorem specLineScore_swap (st : GameState) (hv : boardValid st)
    (q : Int) (hq : q = 0 ∨ q = 1 ∨ q = 2) :
    specLineScore (swapPlayers st) (swapVal q) = specLineScore st q := by
  unfold specLineScore
  have htr : scanTriples (swapPlayers st) = scanTriples st := rfl
  rw [htr]
  exact congrArg List.sum
    (List.map_congr_left fun t _ => specContribution_swap st hv q hq t)

theorem longRunAt_swap (st : GameState) (hv : boardValid st)
    (t : (Int × Int) × (Int × Int)) :
    longRunAt (swapPlayers st) t ↔ longRunAt st t := by
  unfold longRunAt
  have hg := getCell_valid st hv t.1.1 t.1.2
  have hcell : getCell (swapPlayers st).board t.1.1 t.1.2
      = swapVal (getCell st.board t.1.1 t.1.2) := getCell_swap ..
  have hb : inBounds (swapPlayers st) (t.1.1 - t.2.1) (t.1.2 - t.2.2)
      = inBounds st (t.1.1 - t.2.1) (t.1.2 - t.2.2) := rfl
  have hrl : runLength (swapPlayers st)
      (swapVal (getCell st.board t.1.1 t.1.2)) t.1.1 t.1.2 t.2.1 t.2.2
      = runLength st (getCell st.board t.1.1 t.1.2) t.1.1 t.1.2 t.2.1 t.2.2 :=
    runLength_swap st hv _ hg ..
  rw [hcell]
  refine and_congr ?_ (and_congr (not_congr (and_congr (by rw [hb]) ?_))
    (by rw [hrl]))
  · have h0 : swapVal (getCell st.board t.1.1 t.1.2) = swapVal 0 ↔
        getCell st.board t.1.1 t.1.2 = 0 :=
      swapVal_eq_iff _ _ hg (Or.inl rfl)
    rw [show swapVal 0 = 0 from rfl] at h0
    exact not_congr h0
  · rw [getCell_swap]
    exact swapVal_eq_iff _ _ (getCell_valid st hv _ _) hg

theorem specCovered_swap (st : GameState) (hv : boardValid st)
    (x : Int × Int) : specCovered (swapPlayers st) x ↔ specCovered st x := by
  unfold specCovered
  have htr : scanTriples (swapPlayers st) = scanTriples st := rfl
  rw [htr]
  refine exists_congr fun t => and_congr Iff.rfl
    (and_congr (longRunAt_swap st hv t) ?_)
  have hrl : runLength (swapPlayers st)
      (getCell (swapPlayers st).board t.1.1 t.1.2) t.1.1 t.1.2 t.2.1 t.2.2
      = runLength st (getCell st.board t.1.1 t.1.2) t.1.1 t.1.2 t.2.1 t.2.2 := by
    rw [getCell_swap]
    exact runLength_swap st hv _ (getCell_valid st hv t.1.1 t.1.2) ..
  rw [hrl]

theorem specSingletonScore_swap (st : GameState) (hv : boardValid st)
    (q : Int) (hq : q = 0 ∨ q = 1 ∨ q = 2) :
    specSingletonScore (swapPlayers st) (swapVal q)
      = specSingletonScore st q := by
  unfold specSingletonScore
  have hcells : cellsRowMajor (swapPlayers st) = cellsRowMajor st := rfl
  rw [hcells, ← List.countP_eq_length_filter, ← List.countP_eq_length_filter]
  refine List.countP_congr fun cr _ => ?_
  simp only [decide_eq_true_eq]
  exact and_congr (getCell_swap_eq_iff st hv _ _ q hq)
    (not_congr (specCovered_swap st hv cr))

/-- C7: exchanging the two players' stones swaps the two components of
`_compute_scores` before the handicap is added.  The hypothesis is the
data model's constraint that cells hold 0, 1 or 2. -/
theorem computeScoresRaw_swap (st : GameState) (hv : boardValid st) :
    computeScoresRaw (swapPlayers st)
      = ((computeScoresRaw st).2, (computeScoresRaw st).1) := by
  rw [computeScoresRaw_eq_spec st hv,
    computeScoresRaw_eq_spec (swapPlayers st) (boardValid_swap st)]
  have h1 : specLineScore (swapPlayers st) 1 = specLineScore st 2 := by
    have := specLineScore_swap st hv 2 (Or.inr (Or.inr rfl))
    rwa [show swapVal 2 = 1 from rfl] at this
  have h2 : specLineScore (swapPlayers st) 2 = specLineScore st 1 := by
    have := specLineScore_swap st hv 1 (Or.inr (Or.inl rfl))
    rwa [show swapVal 1 = 2 from rfl] at this
  have h3 : specSingletonScore (swapPlayers st) 1
      = specSingletonScore st 2 := by
    have := specSingletonScore_swap st hv 2 (Or.inr (Or.inr rfl))
    rwa [show swapVal 2 = 1 from rfl] at this
  have h4 : specSingletonScore (swapPlayers st) 2
      = specSingletonScore st 1 := by
    have := specSingletonScore_swap st hv 1 (Or.inr (Or.inl rfl))
    rwa [show swapVal 1 = 2 from rfl] at this
  rw [h1, h2, h3, h4]

/-- Witness for C7 on a concrete 2×2 position. -/
theorem computeScoresRaw_swap_witness :
    boardValid ⟨2, 2, 0, 0, [[1, 1], [2, 0]], 1, [], false⟩ ∧
      computeScoresRaw (swapPlayers ⟨2, 2, 0, 0, [[1, 1], [2, 0]], 1, [], false⟩)
        = ((computeScoresRaw ⟨2, 2, 0, 0, [[1, 1], [2, 0]], 1, [], false⟩).2,
           (computeScoresRaw ⟨2, 2, 0, 0, [[1, 1], [2, 0]], 1, [], false⟩).1) :=
  ⟨by decide, computeScoresRaw_swap _ (by decide)⟩

/-! ## Preservation of the state invariant -/

theorem countP_pos_flip {α : Type} (l : List α) (p q : α → Bool) (x : α)
    (hnd : l.Nodup) (hx : x ∈ l) (hagree : ∀ y ∈ l, y ≠ x → p y = q y)
    (hpx : p x = false) (hqx : q x = true) :
    l.countP q = l.countP p + 1 := by
  induction l with
  | nil => cases hx
  | cons a t ih =>
    rw [List.countP_cons, List.countP_cons]
    rcases List.mem_cons.mp hx with rfl | hxt
    · have hnotin : x ∉ t := (List.nodup_cons.mp hnd).1
      have hsame : t.countP q = t.countP p := by
        refine List.countP_congr fun y hy => ?_
        rw [hagree y (List.mem_cons_of_mem _ hy) fun h => hnotin (h ▸ hy)]
      rw [hpx, hqx, hsame]
      simp
    · have ha : a ≠ x := fun h => (List.nodup_cons.mp hnd).1 (h ▸ hxt)
      have hpa : p a = q a := hagree a (List.mem_cons_self _ _) ha
      rw [← hpa, ih (List.nodup_cons.mp hnd).2 hxt
        fun y hy hne => hagree y (List.mem_cons_of_mem _ hy) hne]
      omega

theorem inBounds_eq_true_iff (st : GameState) (c r : Int) :
    inBounds st c r = true ↔
      0 ≤ c ∧ c < (st.cols : Int) ∧ 0 ≤ r ∧ r < (st.rows : Int) := by
  unfold inBounds
  rw [decide_eq_true_eq]

theorem doMove_inv (st : GameState) (c r : Int) (hinv : Inv st)
    (hleg : isLegal st c r = true) : Inv (doMove st c r) := by
  obtain ⟨hend, hc0, hc1, hr0, hr1, hcell⟩ := (isLegal_iff st c r).mp hleg
  obtain ⟨hcur, hsr, hsc, hval, hcnt, hcells, hnd, hcut⟩ := hinv
  have hbnd : inBounds st c r = true :=
    (inBounds_eq_true_iff st c r).mpr ⟨hc0, hc1, hr0, hr1⟩
  have hrn : r.toNat < st.board.length := by
    rw [hsr]
    omega
  have hrow_mem : st.board.getD r.toNat [] ∈ st.board := by
    rw [List.getD_eq_getElem _ _ hrn]
    exact List.getElem_mem hrn
  have hcn : c.toNat < (st.board.getD r.toNat []).length := by
    rw [hsc _ hrow_mem]
    omega
  have hget_new : getCell (setCell st.board c r st.current) c r = st.current :=
    getCell_setCell_self _ _ _ _ hrn hcn
  have hcur_ne : st.current ≠ 0 := by
    rcases hcur with h | h <;> rw [h] <;> decide
  have hother : ∀ x y : Int, ¬ (x = c ∧ y = r) → 0 ≤ x → 0 ≤ y →
      getCell (setCell st.board c r st.current) x y = getCell st.board x y := by
    intro x y hxy hx hy
    refine getCell_setCell_ne _ _ _ _ _ _ ?_
    omega
  have hval' : boardValid { st with board := setCell st.board c r st.current } := by
    intro row hrow v hv
    rcases List.mem_or_eq_of_mem_set hrow with hrow' | rfl
    · exact hval _ hrow' _ hv
    · rcases List.mem_or_eq_of_mem_set hv with hv' | rfl
      · exact hval _ hrow_mem _ hv'
      · rcases hcur with h | h <;> rw [h] <;> simp
  have hsr' : (setCell st.board c r st.current).length = st.rows := by
    rw [setCell_length]
    exact hsr
  have hsc' : ∀ row ∈ setCell st.board c r st.current, row.length = st.cols := by
    intro row hrow
    rcases List.mem_or_eq_of_mem_set hrow with hrow' | rfl
    · exact hsc _ hrow'
    · rw [List.length_set]
      exact hsc _ hrow_mem
  have hcount : occupiedCount { st with board := setCell st.board c r st.current }
      = occupiedCount st + 1 := by
    unfold occupiedCount
    rw [← List.countP_eq_length_filter, ← List.countP_eq_length_filter]
    have hcr : cellsRowMajor { st with board := setCell st.board c r st.current }
        = cellsRowMajor st := rfl
    rw [hcr]
    refine countP_pos_flip _ _ _ (c, r) (nodup_cellsRowMajor st)
      ((mem_cellsRowMajor st (c, r)).mpr hbnd) ?_ ?_ ?_
    · intro y hy hne
      have hy' := (inBounds_eq_true_iff st y.1 y.2).mp
        ((mem_cellsRowMajor st y).mp hy)
      have : getCell (setCell st.board c r st.current) y.1 y.2
          = getCell st.board y.1 y.2 := by
        refine hother y.1 y.2 ?_ hy'.1 hy'.2.2.1
        intro hc
        exact hne (Prod.ext hc.1 hc.2)
      rw [this]
    · rw [hcell]
      rfl
    · show (!(getCell (setCell st.board c r st.current) c r == 0)) = true
      rw [hget_new]
      rcases hcur with h | h <;> rw [h] <;> rfl
  have hnew_cell_fresh : ∀ e ∈ st.history, (e.1, e.2.1) ≠ (c, r) := by
    intro e he heq
    have h1 := (hcells e he).2.1
    have h2 := (hcells e he).2.2
    rw [show e.1 = c from congrArg Prod.fst heq,
      show e.2.1 = r from congrArg Prod.snd heq, hcell] at h1
    rcases h2 with h | h <;> rw [← h1] at h <;> exact absurd h (by decide)
  have hcells' : ∀ e ∈ st.history ++ [(c, r, st.current)],
      inBounds st e.1 e.2.1 = true ∧
        getCell (setCell st.board c r st.current) e.1 e.2.1 = e.2.2 ∧
        (e.2.2 = 1 ∨ e.2.2 = 2) := by
    intro e he
    rcases List.mem_append.mp he with he' | he'
    · obtain ⟨hb, hg, hp⟩ := hcells e he'
      refine ⟨hb, ?_, hp⟩
      have hb' := (inBounds_eq_true_iff st e.1 e.2.1).mp hb
      rw [hother e.1 e.2.1 (fun hc => hnew_cell_fresh e he'
        (Prod.ext hc.1 hc.2)) hb'.1 hb'.2.2.1]
      exact hg
    · rw [List.mem_singleton.mp he']
      exact ⟨hbnd, hget_new, hcur⟩
  have hnd' : ((st.history ++ [(c, r, st.current)]).map
      fun e => (e.1, e.2.1)).Nodup := by
    rw [List.map_append]
    rw [List.nodup_append]
    refine ⟨hnd, List.nodup_singleton _, ?_⟩
    intro a ha hb
    rw [List.mem_map] at ha
    obtain ⟨e, he, rfl⟩ := ha
    have heq : (e.1, e.2.1) = (c, r) := by simpa using hb
    exact hnew_cell_fresh e he heq
  unfold doMove
  split
  · exact ⟨hcur, hsr', hsc', hval', by
      show (st.history ++ [(c, r, st.current)]).length
        = occupiedCount { placed st c r with ended := true }
      rw [show occupiedCount { placed st c r with ended := true }
        = occupiedCount { st with board := setCell st.board c r st.current }
        from rfl, hcount, List.length_append, hcnt]
      rfl, hcells', hnd', hcut⟩
  · refine ⟨?_, hsr', hsc', hval', by
      show (st.history ++ [(c, r, st.current)]).length
        = occupiedCount { placed st c r with current := 3 - (placed st c r).current }
      rw [show occupiedCount { placed st c r with current := 3 - (placed st c r).current }
        = occupiedCount { st with board := setCell st.board c r st.current }
        from rfl, hcount, List.length_append, hcnt]
      rfl, hcells', hnd', hcut⟩
    show 3 - st.current = 1 ∨ 3 - st.current = 2
    omega

theorem undo_inv (st st' : GameState) (hinv : Inv st)
    (hu : undo st = some st') : Inv st' := by
  obtain ⟨hcur, hsr, hsc, hval, hcnt, hcells, hnd, hcut⟩ := hinv
  unfold undo at hu
  rcases hlast : st.history.getLast? with _ | ⟨c, r, player⟩
  · rw [hlast] at hu
    cases hu
  · rw [hlast] at hu
    have hst' : st' = { st with history := st.history.dropLast,
                                board := setCell st.board c r 0,
                                current := player,
                                ended := false } :=
      (Option.some_inj.mp hu).symm
    subst hst'
    have hsplit : st.history.dropLast ++ [(c, r, player)] = st.history :=
      List.dropLast_append_getLast? _ (Option.mem_def.mpr hlast)
    have hmem : (c, r, player) ∈ st.history := by
      rw [← hsplit]
      simp
    obtain ⟨hb, hg, hp⟩ := hcells _ hmem
    obtain ⟨hc0, hc1, hr0, hr1⟩ := (inBounds_eq_true_iff st c r).mp hb
    have hrn : r.toNat < st.board.length := by
      rw [hsr]
      omega
    have hrow_mem : st.board.getD r.toNat [] ∈ st.board := by
      rw [List.getD_eq_getElem _ _ hrn]
      exact List.getElem_mem hrn
    have hcn : c.toNat < (st.board.getD r.toNat []).length := by
      rw [hsc _ hrow_mem]
      omega
    have hget_new : getCell (setCell st.board c r 0) c r = 0 :=
      getCell_setCell_self _ _ _ _ hrn hcn
    have hother : ∀ x y : Int, ¬ (x = c ∧ y = r) → 0 ≤ x → 0 ≤ y →
        getCell (setCell st.board c r 0) x y = getCell st.board x y := by
      intro x y hxy hx hy
      refine getCell_setCell_ne _ _ _ _ _ _ ?_
      omega
    have hp_ne : getCell st.board c r ≠ 0 := by
      rw [hg]
      rcases hp with h | h <;> rw [h] <;> decide
    -- the popped cell appears in no earlier history entry
    have hfresh : ∀ e ∈ st.history.dropLast, (e.1, e.2.1) ≠ (c, r) := by
      have hnd2 : ((st.history.dropLast.map fun e => (e.1, e.2.1))
          ++ [(c, r)]).Nodup := by
        have : st.history.map (fun e => (e.1, e.2.1))
            = st.history.dropLast.map (fun e => (e.1, e.2.1)) ++ [(c, r)] := by
          conv_lhs => rw [← hsplit]
          rw [List.map_append]
          rfl
        rw [← this]
        exact hnd
      intro e he heq
      obtain ⟨-, -, hdisj⟩ := List.nodup_append.mp hnd2
      exact hdisj (a := (e.1, e.2.1)) (List.mem_map_of_mem _ he)
        (by rw [heq]; exact List.mem_singleton_self _)
    have hcount : occupiedCount st
        = occupiedCount { st with board := setCell st.board c r 0 } + 1 := by
      unfold occupiedCount
      rw [← List.countP_eq_length_filter, ← List.countP_eq_length_filter]
      have hcr : cellsRowMajor { st with board := setCell st.board c r 0 }
          = cellsRowMajor st := rfl
      rw [hcr]
      refine countP_pos_flip _ _ _ (c, r) (nodup_cellsRowMajor st)
        ((mem_cellsRowMajor st (c, r)).mpr hb) ?_ ?_ ?_
      · intro y hy hne
        have hy' := (inBounds_eq_true_iff st y.1 y.2).mp
          ((mem_cellsRowMajor st y).mp hy)
        have : getCell (setCell st.board c r 0) y.1 y.2
            = getCell st.board y.1 y.2 := by
          refine hother y.1 y.2 ?_ hy'.1 hy'.2.2.1
          intro hcc
          exact hne (Prod.ext hcc.1 hcc.2)
        rw [this]
      · rw [hget_new]
        rfl
      · show (!(getCell st.board c r == 0)) = true
        rw [hg]
        rcases hp with h | h <;> rw [h] <;> rfl
    have hlen_pos : 0 < st.history.length := List.length_pos.mpr
      (List.ne_nil_of_mem hmem)
    refine ⟨hp, ?_, ?_, ?_, ?_, ?_, ?_, hcut⟩
    · show (setCell st.board c r 0).length = st.rows
      rw [setCell_length]
      exact hsr
    · intro row hrow
      rcases List.mem_or_eq_of_mem_set hrow with hrow' | rfl
      · exact hsc _ hrow'
      · rw [List.length_set]
        exact hsc _ hrow_mem
    · intro row hrow v hv
      rcases List.mem_or_eq_of_mem_set hrow with hrow' | rfl
      · exact hval _ hrow' _ hv
      · rcases List.mem_or_eq_of_mem_set hv with hv' | rfl
        · exact hval _ hrow_mem _ hv'
        · exact Or.inl rfl
    · show st.history.dropLast.length
        = occupiedCount { st with board := setCell st.board c r 0 }
      rw [List.length_dropLast]
      omega
    · intro e he
      have he' : e ∈ st.history :=
        (List.dropLast_sublist st.history).mem he
      obtain ⟨hb2, hg2, hp2⟩ := hcells e he'
      refine ⟨hb2, ?_, hp2⟩
      have hb2' := (inBounds_eq_true_iff st e.1 e.2.1).mp hb2
      rw [hother e.1 e.2.1 (fun hcc => hfresh e he (Prod.ext hcc.1 hcc.2))
        hb2'.1 hb2'.2.2.1]
      exact hg2
    · have : st.history.map (fun e => (e.1, e.2.1))
          = st.history.dropLast.map (fun e => (e.1, e.2.1)) ++ [(c, r)] := by
        conv_lhs => rw [← hsplit]
        rw [List.map_append]
        rfl
      rw [this] at hnd
      exact (List.nodup_append.mp hnd).1

theorem init_game_inv (st : GameState) (w h : Int) (p s : ℚ)
    (st' : GameState)
    (hs : init_game st (some w) (some h) (some p) (some s) = (true, st')) :
    Inv st' := by
  simp only [init_game] at hs
  by_cases hrange : ¬ (1 ≤ w ∧ w ≤ 20 ∧ 1 ≤ h ∧ h ≤ 20)
  · rw [if_pos hrange] at hs
    simp at hs
  · rw [if_neg hrange] at hs
    by_cases hcutoff : s < 0
    · rw [if_pos hcutoff] at hs
      simp at hs
    · rw [if_neg hcutoff] at hs
      rw [Prod.mk.injEq] at hs
      rw [← hs.2]
      refine ⟨Or.inl rfl, ?_, ?_, ?_, ?_, ?_, ?_, not_lt.mp hcutoff⟩
      · exact List.length_replicate ..
      · intro row hrow
        rw [List.eq_of_mem_replicate hrow]
        exact List.length_replicate ..
      · intro row hrow v hv
        rw [List.eq_of_mem_replicate hrow] at hv
        exact Or.inl (List.eq_of_mem_replicate hv)
      · show (0 : Nat) = occupiedCount _
        unfold occupiedCount
        rw [← List.countP_eq_length_filter]
        refine (List.countP_eq_zero.mpr ?_).symm
        intro a _
        show ¬ (!(getCell (List.replicate h.toNat
          (List.replicate w.toNat 0)) a.1 a.2 == 0)) = true
        rw [getCell_replicate]
        decide
      · intro e he
        cases he
      · simp

theorem reachable_inv (st : GameState) (h : Reachable st) : Inv st := by
  induction h with
  | init st w h p s st' hi => exact init_game_inv st w h p s st' hi
  | play st c r st' _ hp ih =>
    unfold play at hp
    by_cases hleg : isLegal st c r = true
    · rw [if_pos hleg, Option.some_inj] at hp
      rw [← hp]
      exact doMove_inv st c r ih hleg
    · rw [if_neg hleg] at hp
      cases hp
  | gen st k res st' _ hg ih =>
    unfold genmove at hg
    by_cases hempty : (legalMoves st).isEmpty = true
    · rw [if_pos hempty] at hg
      rw [Prod.mk.injEq] at hg
      rw [← hg.2]
      exact ih
    · rw [if_neg hempty] at hg
      rw [Prod.mk.injEq] at hg
      rw [← hg.2]
      have hlen : 0 < (legalMoves st).length := by
        refine List.length_pos.mpr fun hnil => hempty ?_
        rw [hnil]
        rfl
      have hmem : (legalMoves st).getD (k % (legalMoves st).length) (0, 0)
          ∈ legalMoves st := by
        rw [List.getD_eq_getElem _ _ (Nat.mod_lt _ hlen)]
        exact List.getElem_mem _
      unfold legalMoves at hmem
      exact doMove_inv st _ _ ih (List.mem_filter.mp hmem).2
  | undo st st' _ hu ih => exact undo_inv st st' ih hu

/-! ## C10: the reachable-state invariant -/

/-- C10: every state reachable from a successful `init_game` by
successful `play`/`genmove`/`undo` has current player 1 or 2, cell values
in {0, 1, 2}, history length equal to the number of occupied cells, and
history entries recording pairwise-distinct in-bounds cells currently
occupied by the recorded player. -/
theorem reachable_state_invariant (st : GameState) (h : Reachable st) :
    (st.current = 1 ∨ st.current = 2) ∧
    boardValid st ∧
    st.history.length = occupiedCount st ∧
    ((st.history.map fun e => (e.1, e.2.1)).Nodup) ∧
    (∀ e ∈ st.history, inBounds st e.1 e.2.1 = true ∧
      getCell st.board e.1 e.2.1 = e.2.2 ∧ (e.2.2 = 1 ∨ e.2.2 = 2)) := by
  obtain ⟨h1, hsr, hsc, hv, hcnt, hcells, hnd, hcut⟩ := reachable_inv st h
  exact ⟨h1, hv, hcnt, hnd, hcells⟩

/-- Witness for C10 at a concrete reachable state. -/
theorem reachable_state_invariant_witness :
    Reachable demoState ∧
      ((demoState.current = 1 ∨ demoState.current = 2) ∧
        boardValid demoState ∧
        demoState.history.length = occupiedCount demoState ∧
        ((demoState.history.map fun e => (e.1, e.2.1)).Nodup) ∧
        (∀ e ∈ demoState.history, inBounds demoState e.1 e.2.1 = true ∧
          getCell demoState.board e.1 e.2.1 = e.2.2 ∧
          (e.2.2 = 1 ∨ e.2.2 = 2))) :=
  have hreach : Reachable demoState :=
    Reachable.play (init_game initialState (some 2) (some 1) (some 0)
        (some 0)).2 0 0 demoState
      (Reachable.init initialState 2 1 0 0
        (init_game initialState (some 2) (some 1) (some 0) (some 0)).2
        (by decide))
      (by decide)
  ⟨hreach, reachable_state_invariant demoState hreach⟩

/-! ## C1: the scoring algorithm matches its specification -/

/-- C1: on every reachable board, `_compute_scores` returns, for each
player, the sum of `2^(L-1)` over that player's maximal runs of length
`L ≥ 2` in the four scan directions plus one point per stone of that
player on no such run, with the handicap added to player 2 only. -/
theorem computeScores_eq_spec (st : GameState) (h : Reachable st) :
    computeScores st =
      (((specLineScore st 1 + specSingletonScore st 1 : Nat) : ℚ),
       ((specLineScore st 2 + specSingletonScore st 2 : Nat) : ℚ)
         + st.handicap) := by
  have hv := (reachable_inv st h).cells_ok
  show (((computeScoresRaw st).1 : ℚ), ((computeScoresRaw st).2 : ℚ)
    + st.handicap) = _
  rw [computeScoresRaw_eq_spec st hv]

/-- Witness for C1 at a concrete reachable state with a stone on it. -/
theorem computeScores_eq_spec_witness :
    Reachable demoState ∧
      computeScores demoState =
        (((specLineScore demoState 1 + specSingletonScore demoState 1 : Nat)
            : ℚ),
         ((specLineScore demoState 2 + specSingletonScore demoState 2 : Nat)
            : ℚ) + demoState.handicap) :=
  have hreach : Reachable demoState :=
    Reachable.play (init_game initialState (some 2) (some 1) (some 0)
        (some 0)).2 0 0 demoState
      (Reachable.init initialState 2 1 0 0
        (init_game initialState (some 2) (some 1) (some 0) (some 0)).2
        (by decide))
      (by decide)
  ⟨hreach, computeScores_eq_spec demoState hreach⟩

/-! ## C4: lower bounds on the scores -/

/-- C4 as stated is false: `init_game` accepts a negative handicap, and
the second score of the fresh (reachable) board is then negative. -/
theorem score_nonneg_counterexample :
    init_game initialState (some 1) (some 1) (some (-5)) (some 0)
        = (true,
          (init_game initialState (some 1) (some 1) (some (-5)) (some 0)).2) ∧
      Reachable
        (init_game initialState (some 1) (some 1) (some (-5)) (some 0)).2 ∧
      (computeScores
        (init_game initialState (some 1) (some 1) (some (-5)) (some 0)).2).2
        < 0 :=
  ⟨by decide,
   Reachable.init initialState 1 1 (-5) 0
     (init_game initialState (some 1) (some 1) (some (-5)) (some 0)).2
     (by decide),
   by
     show ((0 : Nat) : ℚ) + (-5) < 0
     norm_num⟩

/-- C4 amended: on every reachable state player 1's score is
non-negative and player 2's score is at least the handicap, so both are
non-negative whenever the handicap is non-negative. -/
theorem score_lower_bounds (st : GameState) (_h : Reachable st) :
    0 ≤ (computeScores st).1 ∧ st.handicap ≤ (computeScores st).2 ∧
      (0 ≤ st.handicap → 0 ≤ (computeScores st).2) := by
  refine ⟨?_, ?_, ?_⟩
  · show (0 : ℚ) ≤ ((computeScoresRaw st).1 : ℚ)
    exact Nat.cast_nonneg _
  · show st.handicap ≤ ((computeScoresRaw st).2 : ℚ) + st.handicap
    exact le_add_of_nonneg_left (Nat.cast_nonneg _)
  · intro hh
    show (0 : ℚ) ≤ ((computeScoresRaw st).2 : ℚ) + st.handicap
    exact add_nonneg (Nat.cast_nonneg _) hh

/-- Witness for the amended C4. -/
theorem score_lower_bounds_witness :
    Reachable demoState ∧
      (0 ≤ (computeScores demoState).1 ∧
        demoState.handicap ≤ (computeScores demoState).2 ∧
        (0 ≤ demoState.handicap → 0 ≤ (computeScores demoState).2)) :=
  have hreach : Reachable demoState :=
    Reachable.play (init_game initialState (some 2) (some 1) (some 0)
        (some 0)).2 0 0 demoState
      (Reachable.init initialState 2 1 0 0
        (init_game initialState (some 2) (some 1) (some 0) (some 0)).2
        (by decide))
      (by decide)
  ⟨hreach, score_lower_bounds demoState hreach⟩

/-! ## C2: end condition and winner determination -/

theorem runLengthAux_canon (cols rows : Nat) (cut hand : ℚ)
    (b : List (List Int)) (cu : Int) (hh : List (Int × Int × Int)) (e : Bool)
    (p dc dr : Int) (fuel : Nat) : ∀ c r : Int,
    runLengthAux ⟨cols, rows, cut, hand, b, cu, hh, e⟩ p dc dr c r fuel
      = runLengthAux ⟨cols, rows, cut, hand, b, 1, [], false⟩ p dc dr c r
          fuel := by
  induction fuel with
  | zero => intro c r; rfl
  | succ n ih =>
    intro c r
    rw [runLengthAux, runLengthAux]
    refine if_congr Iff.rfl ?_ rfl
    rw [ih]

/-- `_compute_scores` reads only the dimensions, the board and the
handicap: the current player, the history and the ended flag are
irrelevant to it. -/
theorem computeScores_irrel (cols rows : Nat) (cut hand : ℚ)
    (b : List (List Int)) (cu1 cu2 : Int)
    (h1 h2 : List (Int × Int × Int)) (e1 e2 : Bool) :
    computeScores ⟨cols, rows, cut, hand, b, cu1, h1, e1⟩
      = computeScores ⟨cols, rows, cut, hand, b, cu2, h2, e2⟩ := by
  unfold computeScores computeScoresRaw phase1 scanStep phase2Step scanTriples
    cellsRowMajor runLength getCell inBounds
  dsimp only
  simp only [runLengthAux_canon]

/-- `_board_full` likewise ignores current player, history and flag. -/
theorem boardFull_irrel (cols rows : Nat) (cut hand : ℚ)
    (b : List (List Int)) (cu1 cu2 : Int)
    (h1 h2 : List (Int × Int × Int)) (e1 e2 : Bool) :
    boardFull ⟨cols, rows, cut, hand, b, cu1, h1, e1⟩
      = boardFull ⟨cols, rows, cut, hand, b, cu2, h2, e2⟩ := by
  unfold boardFull cellsRowMajor getCell
  dsimp only

theorem computeScores_doMove (st : GameState) (c r : Int) :
    computeScores (doMove st c r) = computeScores (placed st c r) := by
  unfold doMove
  split
  · exact computeScores_irrel ..
  · exact computeScores_irrel ..

theorem boardFull_doMove (st : GameState) (c r : Int) :
    boardFull (doMove st c r) = boardFull (placed st c r) := by
  unfold doMove
  split
  · exact boardFull_irrel ..
  · exact boardFull_irrel ..

theorem doMove_ended (st : GameState) (c r : Int) (hend : st.ended = false) :
    (doMove st c r).ended = gameShouldEndAfterMove (placed st c r)
      (computeScores (placed st c r)).1 (computeScores (placed st c r)).2 := by
  unfold doMove
  split
  · rename_i hcond
    exact hcond.symm
  · rename_i hcond
    show st.ended = _
    rw [hend]
    have hfalse : gameShouldEndAfterMove (placed st c r)
        (computeScores (placed st c r)).1
        (computeScores (placed st c r)).2 = false := by
      cases hgs : gameShouldEndAfterMove (placed st c r)
        (computeScores (placed st c r)).1 (computeScores (placed st c r)).2
      · rfl
      · exact absurd hgs hcond
    exact hfalse.symm

/-- C2: with cutoff 0 a move ends the game exactly when it fills the
board, and the winner is "unknown" until the board is full, then the
strictly-higher scorer ("unknown" on a tie); with cutoff > 0 a move ends
the game exactly when some score reaches the cutoff, and the winner is
the strictly-higher scorer once some score has reached the cutoff,
"unknown" on a tie or while neither score has. -/
theorem end_condition_and_winner (st : GameState) :
    (∀ c r st', play st c r = some st' →
      ((st.cutoff = 0 → (st'.ended = true ↔ boardFull st' = true)) ∧
       (0 < st.cutoff → (st'.ended = true ↔
         st.cutoff ≤ (computeScores st').1 ∨
           st.cutoff ≤ (computeScores st').2)))) ∧
    (st.cutoff = 0 →
      (boardFull st = false → winner st = "unknown") ∧
      (boardFull st = true →
        winner st = if (computeScores st).2 < (computeScores st).1 then "1"
          else if (computeScores st).1 < (computeScores st).2 then "2"
          else "unknown")) ∧
    (0 < st.cutoff →
      ((st.cutoff ≤ (computeScores st).1 ∨ st.cutoff ≤ (computeScores st).2) →
        winner st = if (computeScores st).2 < (computeScores st).1 then "1"
          else if (computeScores st).1 < (computeScores st).2 then "2"
          else "unknown") ∧
      (¬ (st.cutoff ≤ (computeScores st).1 ∨
          st.cutoff ≤ (computeScores st).2) →
        winner st = "unknown")) := by
  refine ⟨?_, ?_, ?_⟩
  · intro c r st' hp
    unfold play at hp
    by_cases hleg : isLegal st c r = true
    · rw [if_pos hleg, Option.some_inj] at hp
      have hend := ((isLegal_iff st c r).mp hleg).1
      subst hp
      have hed := doMove_ended st c r hend
      have hbf := boardFull_doMove st c r
      have hsc := computeScores_doMove st c r
      constructor
      · intro hcut0
        rw [hed, hbf, gameShouldEndAfterMove,
          if_pos (show (placed st c r).cutoff = 0 from hcut0)]
      · intro hcutpos
        rw [hed, hsc, gameShouldEndAfterMove,
          if_neg (show ¬ (placed st c r).cutoff = 0 from ne_of_gt hcutpos)]
        show (if st.cutoff ≤ (computeScores (placed st c r)).1 ∨
            st.cutoff ≤ (computeScores (placed st c r)).2 then true
          else false) = true ↔ _
        split
        · rename_i hc
          exact iff_of_true rfl hc
        · rename_i hc
          exact iff_of_false Bool.false_ne_true hc
    · rw [if_neg hleg] at hp
      cases hp
  · intro hcut0
    constructor
    · intro hnf
      unfold winner winnerFromScores
      rw [if_pos hcut0, if_pos (by rw [hnf]; exact Bool.false_ne_true)]
    · intro hf
      unfold winner winnerFromScores
      rw [if_pos hcut0, if_neg (by rw [hf]; exact not_not_intro rfl)]
  · intro hcutpos
    constructor
    · intro hreached
      unfold winner winnerFromScores
      rw [if_neg (ne_of_gt hcutpos), if_pos hreached]
    · intro hnot
      unfold winner winnerFromScores
      rw [if_neg (ne_of_gt hcutpos), if_neg hnot]

/-- Witness for C2: a concrete ending move with cutoff 0, and concrete
"unknown" winners in both cutoff modes. -/
theorem end_condition_and_winner_witness :
    ((doMove demoBase 0 0).ended = true
        ↔ boardFull (doMove demoBase 0 0) = true) ∧
      winner demoBase = "unknown" ∧
      winner demoCutoff = "unknown" :=
  ⟨(((end_condition_and_winner demoBase).1 0 0 (doMove demoBase 0 0)
      (by decide)).1 (by decide)),
   ((end_condition_and_winner demoBase).2.1 (by decide)).1 (by decide),
   ((end_condition_and_winner demoCutoff).2.2 (by decide)).2 (by
     show ¬ ((5 : ℚ) ≤ ((0 : Nat) : ℚ) ∨ (5 : ℚ) ≤ ((0 : Nat) : ℚ) + 0)
     norm_num)⟩

end A1
